import Mathlib

/-!
Verification development for the Gtol tree-web repository.

The definitions below are a shallow embedding of `src/tree-web/tree_algo.py`
and `src/tree-web/app_custom.py`.  Python floats are modelled as exact
rationals (every input exercised by a concrete theorem below takes values on
which IEEE doubles are exact).  Side effects that do not alter returned data
(stderr logging, progress callbacks) are dropped.
-/

namespace Gtol

/-- Characters matched by the regex class `\s` over ASCII text
(space, tab, newline, carriage return, vertical tab, form feed). -/
def isSpaceChar (c : Char) : Bool :=
  c = ' ' || c = '\t' || c = '\n' || c = '\r' || c = Char.ofNat 11 || c = Char.ofNat 12

/-- Python `str.strip()` on a character list. -/
def trimChars (l : List Char) : List Char :=
  ((l.dropWhile isSpaceChar).reverse.dropWhile isSpaceChar).reverse

/-- The delimiter class `[(),;]` of the token regex (group 1). -/
def isDelimChar (c : Char) : Bool :=
  c = '(' || c = ')' || c = ',' || c = ';'

/-- The excluded class of the name alternative `[^(),:;]` (group 2 is its
complement). -/
def isExcludedChar (c : Char) : Bool :=
  c = '(' || c = ')' || c = ',' || c = ':' || c = ';'

/-- Numeric value of a digit run (most significant first). -/
def digitsVal (ds : List Char) : ℕ :=
  ds.foldl (fun a c => a * 10 + (c.toNat - 48)) 0

/-- Scan the optional exponent part `(?:[eE][-+]?\d+)?` of the number regex.
Returns the consumed characters and the rest; consumes nothing when the
exponent does not fully match. -/
def scanExpChars (s : List Char) : List Char × List Char :=
  match s with
  | [] => ([], s)
  | c :: rr =>
    if c = 'e' || c = 'E' then
      let sr : List Char × List Char :=
        match rr with
        | c2 :: rq => if c2 = '-' || c2 = '+' then ([c2], rq) else ([], rr)
        | [] => ([], rr)
      let ed := sr.2.takeWhile Char.isDigit
      if ed = [] then ([], s) else (c :: (sr.1 ++ ed), sr.2.drop ed.length)
    else ([], s)

/-- Scan `[-+]?\d*\.?\d+(?:[eE][-+]?\d+)?` at the head of the input,
with the regex backtracking semantics (a trailing `.` with no digit after it
is left unconsumed).  Returns the consumed span and the rest. -/
def scanNumberChars (s : List Char) : Option (List Char × List Char) :=
  let sg : List Char × List Char :=
    match s with
    | c :: r => if c = '-' || c = '+' then ([c], r) else ([], s)
    | [] => ([], s)
  let d1 := sg.2.takeWhile Char.isDigit
  let r1 := sg.2.drop d1.length
  match r1 with
  | '.' :: rr =>
    let d2 := rr.takeWhile Char.isDigit
    if d2 = [] then
      if d1 = [] then none
      else
        let er := scanExpChars r1
        some (sg.1 ++ d1 ++ er.1, er.2)
    else
      let r2 := rr.drop d2.length
      let er := scanExpChars r2
      some (sg.1 ++ d1 ++ '.' :: d2 ++ er.1, er.2)
  | _ =>
    if d1 = [] then none
    else
      let er := scanExpChars r1
      some (sg.1 ++ d1 ++ er.1, er.2)

/-- Model of Python `float()` restricted to the shapes the tokenizer can
yield after `tok[1:].strip()`: `[-+]?\d*\.?\d+([eE][-+]?\d+)?` with the
whole string consumed.  Exact rational value. -/
def parseFloatChars (t : List Char) : Option ℚ :=
  let sg : ℤ × List Char :=
    match t with
    | '-' :: r => (-1, r)
    | '+' :: r => (1, r)
    | _ => (1, t)
  let d1 := sg.2.takeWhile Char.isDigit
  let r1 := sg.2.drop d1.length
  let core : Option (List Char × List Char × List Char) :=
    match r1 with
    | '.' :: rr =>
      let d2 := rr.takeWhile Char.isDigit
      if d2 = [] then (if d1 = [] then none else some (d1, [], r1))
      else some (d1, d2, rr.drop d2.length)
    | _ => if d1 = [] then none else some (d1, [], r1)
  match core with
  | none => none
  | some (ip, fp, r2) =>
    let ex : ℤ × List Char :=
      match r2 with
      | c :: rr =>
        if c = 'e' || c = 'E' then
          let sr : ℤ × List Char :=
            match rr with
            | '-' :: rq => (-1, rq)
            | '+' :: rq => (1, rq)
            | _ => (1, rr)
          let ed := sr.2.takeWhile Char.isDigit
          if ed = [] then (0, r2) else (sr.1 * (digitsVal ed : ℤ), sr.2.drop ed.length)
        else (0, r2)
      | [] => (0, r2)
    if ex.2 = [] then
      some ((sg.1 : ℚ) * ((digitsVal (ip ++ fp) : ℚ) / (10 : ℚ) ^ (fp.length)) * (10 : ℚ) ^ ex.1)
    else none

/-- Regex alternative 1, `\s*([(),;])\s*`, matched at the current position.
Returns the group text (the delimiter) and the rest of the input. -/
def matchAlt1 (s : List Char) : Option (List Char × List Char) :=
  let w := s.takeWhile isSpaceChar
  let r := s.drop w.length
  match r with
  | c :: r1 =>
    if isDelimChar c then
      let w2 := r1.takeWhile isSpaceChar
      some ([c], r1.drop w2.length)
    else none
  | [] => none

/-- Regex alternative 2, `\s*([^(),:;]+)\s*`.  The greedy char class also
eats interior and trailing whitespace.  When the character after the leading
whitespace run is excluded (or the input ends), the engine backtracks one
whitespace character, which then forms a one-character group by itself
(yielding an empty token after stripping). -/
def matchAlt2 (s : List Char) : Option (List Char × List Char) :=
  let w := s.takeWhile isSpaceChar
  let r := s.drop w.length
  match r with
  | c :: _ =>
    if isExcludedChar c then
      if w = [] then none else some ([w.getLastD ' '], r)
    else
      let g := r.takeWhile (fun d => !isExcludedChar d)
      some (g, r.drop g.length)
  | [] => if w = [] then none else some ([w.getLastD ' '], r)

/-- Regex alternative 3, `(\s*:\s*[-+]?\d*\.?\d+(?:[eE][-+]?\d+)?)`.
The whole match is the group, so the returned token text includes the
leading whitespace, the colon, and the whitespace after it. -/
def matchAlt3 (s : List Char) : Option (List Char × List Char) :=
  let w1 := s.takeWhile isSpaceChar
  let r0 := s.drop w1.length
  match r0 with
  | ':' :: r1 =>
    let w2 := r1.takeWhile isSpaceChar
    let r2 := r1.drop w2.length
    match scanNumberChars r2 with
    | some (num, rest) => some (w1 ++ ':' :: (w2 ++ num), rest)
    | none => none
  | _ => none

/-- Error kinds of the embedded pipeline.  `valueErrorTokenize` is the
tokenizer `ValueError` for an unexpected byte; `indexError` is
`stack.pop()` on an empty list; `keyError` is `nodes[None]`;
`floatErr` is `float()` on a non-numeric string; `noRoot` is the
"No root detected" `ValueError`; `fuelOut` marks exhausted recursion fuel
(unreachable for the fuel bounds used below). -/
inductive Err where
  | valueErrorTokenize : Err
  | indexError : Err
  | keyError : Err
  | floatErr : Err
  | noRoot : Err
  | fuelOut : Err
deriving DecidableEq, Repr

/-- The `_tokenize` loop: repeatedly match the token regex at the current
position, yielding `tok.strip()` for each match; skip a stray whitespace
byte; fail on any other unmatched byte.  Fuel bounds the number of
iterations (every step consumes at least one character). -/
def tokenizeLoop : ℕ → List Char → Except Err (List (List Char))
  | _, [] => .ok []
  | 0, _ :: _ => .error .fuelOut
  | fuel + 1, s =>
    match matchAlt1 s with
    | some (t, r) =>
      match tokenizeLoop fuel r with
      | .ok ts => .ok (trimChars t :: ts)
      | .error e => .error e
    | none =>
      match matchAlt2 s with
      | some (t, r) =>
        match tokenizeLoop fuel r with
        | .ok ts => .ok (trimChars t :: ts)
        | .error e => .error e
      | none =>
        match matchAlt3 s with
        | some (t, r) =>
          match tokenizeLoop fuel r with
          | .ok ts => .ok (trimChars t :: ts)
          | .error e => .error e
        | none =>
          match s with
          | c :: r => if isSpaceChar c then tokenizeLoop fuel r else .error .valueErrorTokenize
          | [] => .ok []

/-- `_tokenize(newick)`: strip the input, then run the matching loop. -/
def tokenizeNewick (s : String) : Except Err (List (List Char)) :=
  let t := trimChars s.data
  tokenizeLoop (t.length + 1) t

/-- The `TNode` dataclass of `tree_algo.py`. -/
structure TNode where
  id : String
  name : String := ""
  parent : Option String := none
  blen : ℚ := 0
  children : List String := []
deriving DecidableEq, Repr

instance : Inhabited TNode := ⟨{ id := "" }⟩

/-- `nodes[u]` on the insertion-ordered node table.  Every lookup performed
by the source is on a key that is present, so the default is never used. -/
def getNode (nodes : List TNode) (u : String) : TNode :=
  (nodes.find? (fun n => n.id = u)).getD default

/-- In-place field update `nodes[u] = f(nodes[u])` on the node table. -/
def updNode (nodes : List TNode) (u : String) (f : TNode → TNode) : List TNode :=
  nodes.map (fun n => if n.id = u then f n else n)

/-- The mutable state of the `parse_newick` token loop. -/
structure PState where
  nodes : List TNode := []
  stack : List (Option String) := []
  last : Option String := none
  nid : ℕ := 0
  currentParent : Option String := none
  pendingName : Option String := none
  pendingLen : Option ℚ := none
deriving DecidableEq, Repr

/-- Initial state of the parse loop. -/
def initPState : PState := {}

/-- The `(` branch of the parse loop: create an anonymous internal node,
attach it to the current parent, push the parent, descend.  The Python
stack (`append`/`pop` at the end) is modelled with the list head as the
stack top. -/
def openStep (st : PState) : PState :=
  let u := "n" ++ toString (st.nid + 1)
  let node : TNode := { id := u, parent := st.currentParent }
  let nodes1 := st.nodes ++ [node]
  let nodes2 :=
    match st.currentParent with
    | some p => updNode nodes1 p (fun n => { n with children := n.children ++ [u] })
    | none => nodes1
  { st with
    nodes := nodes2
    nid := st.nid + 1
    stack := st.currentParent :: st.stack
    currentParent := some u
    last := none }

/-- The `,` branch: clear the cursor and the pending slots. -/
def commaStep (st : PState) : PState :=
  { st with last := none, pendingName := none, pendingLen := none }

/-- The `)` branch: attach pending name/length to `nodes[current_parent]`
(a `KeyError` when `current_parent` is `None`), then pop the parent stack
(an `IndexError` when it is empty) and clear `last`. -/
def closeStep (st : PState) : Except Err PState :=
  let att1 : Except Err (List TNode) :=
    match st.pendingName with
    | none => .ok st.nodes
    | some nm =>
      match st.currentParent with
      | none => .error .keyError
      | some p => .ok (updNode st.nodes p (fun n => { n with name := nm }))
  match att1 with
  | .error e => .error e
  | .ok nodes1 =>
    let att2 : Except Err (List TNode) :=
      match st.pendingLen with
      | none => .ok nodes1
      | some L =>
        match st.currentParent with
        | none => .error .keyError
        | some p => .ok (updNode nodes1 p (fun n => { n with blen := L }))
    match att2 with
    | .error e => .error e
    | .ok nodes2 =>
      match st.stack with
      | [] => .error .indexError
      | x :: rest =>
        .ok { st with
              nodes := nodes2
              pendingName := none
              pendingLen := none
              currentParent := x
              stack := rest
              last := none }

/-- The `:<num>` branch: parse the float; write it to `nodes[last]` when
`last` is set, else buffer it as the pending length. -/
def lenStep (st : PState) (tok : List Char) : Except Err PState :=
  match parseFloatChars (trimChars tok.tail) with
  | none => .error .floatErr
  | some L =>
    match st.last with
    | none => .ok { st with pendingLen := some L }
    | some lu => .ok { st with nodes := updNode st.nodes lu (fun n => { n with blen := L }) }

/-- The name branch: create a leaf node carrying the token as its name,
attach it to the current parent, point `last` at it, clear the pending
slots. -/
def nameStep (st : PState) (tok : List Char) : PState :=
  let u := "n" ++ toString (st.nid + 1)
  let node : TNode := { id := u, name := String.mk tok, parent := st.currentParent }
  let nodes1 := st.nodes ++ [node]
  let nodes2 :=
    match st.currentParent with
    | some p => updNode nodes1 p (fun n => { n with children := n.children ++ [u] })
    | none => nodes1
  { st with
    nodes := nodes2
    nid := st.nid + 1
    last := some u
    pendingName := none
    pendingLen := none }

/-- One iteration of the `for tok in _tokenize(newick)` body.  The returned
flag is true when the loop `break`s (at `;`). -/
def parseStep (st : PState) (tok : List Char) : Except Err (PState × Bool) :=
  if tok = ['('] then .ok (openStep st, false)
  else if tok = [','] then .ok (commaStep st, false)
  else if tok = [')'] then
    match closeStep st with
    | .error e => .error e
    | .ok st2 => .ok (st2, false)
  else if tok = [';'] then .ok (st, true)
  else if tok.head? = some ':' then
    match lenStep st tok with
    | .error e => .error e
    | .ok st2 => .ok (st2, false)
  else .ok (nameStep st tok, false)

/-- Whether the `limit` soft cap stops the loop before the next token. -/
def limitHit (limit : Option ℕ) (st : PState) : Bool :=
  match limit with
  | some m => st.nodes.length ≥ m
  | none => false

/-- The token loop of `parse_newick`. -/
def parseLoop (limit : Option ℕ) (st : PState) : List (List Char) → Except Err PState
  | [] => .ok st
  | t :: ts =>
    if limitHit limit st then .ok st
    else
      match parseStep st t with
      | .error e => .error e
      | .ok (st2, true) => .ok st2
      | .ok (st2, false) => parseLoop limit st2 ts

/-- Root detection and synthetic-root unification after the token loop.
Python inserts the `root0` record at the end of the dict and then rewrites
the parents of the previous roots. -/
def finalizeParse (st : PState) : Except Err (List TNode) :=
  let roots := (st.nodes.filter (fun n => n.parent = none)).map (fun n => n.id)
  match roots with
  | [] => .error .noRoot
  | [_] => .ok st.nodes
  | _ =>
    let reparented := st.nodes.map (fun n =>
      if n.parent = none then { n with parent := some "root0" } else n)
    .ok (reparented ++ [{ id := "root0", name := "root", parent := none, blen := 0
                          children := roots }])

/-- `parse_newick(newick, limit=limit)`: tokenize, run the loop, unify roots. -/
def parseNewick (s : String) (limit : Option ℕ) : Except Err (List TNode) :=
  match tokenizeNewick s with
  | .error e => .error e
  | .ok ts =>
    match parseLoop limit initPState ts with
    | .error e => .error e
    | .ok st => finalizeParse st

/-- Update-or-append on an association list, modelling `d[k] = v` on a dict. -/
def setEntry (m : List (String × ℚ)) (k : String) (v : ℚ) : List (String × ℚ) :=
  if m.any (fun e => e.1 = k) then m.map (fun e => if e.1 = k then (k, v) else e)
  else m ++ [(k, v)]

/-- Python string `<`: lexicographic comparison by code point. -/
def charListLt : List Char → List Char → Bool
  | [], [] => false
  | [], _ :: _ => true
  | _ :: _, [] => false
  | a :: as2, b :: bs2 => if a.val < b.val then true else if a = b then charListLt as2 bs2 else false

/-- Python string `<` on `String`. -/
def strLt (a b : String) : Bool := charListLt a.data b.data

/-- `_collect_leaves(nodes, u)`: depth-first leaf list of the subtree at
`u`, in child order.  Fuel bounds the recursion depth (the source recurses;
for parser-produced trees a fuel of `nodes.length + 1` is ample). -/
def collectLeaves (nodes : List TNode) : ℕ → String → List String
  | 0, _ => []
  | fuel + 1, u =>
    let n := getNode nodes u
    if n.children = [] then [u]
    else n.children.flatMap (fun c => collectLeaves nodes fuel c)

/-- `_find_root(nodes)`: first node in insertion order with no parent. -/
def findRoot (nodes : List TNode) : Option String :=
  (nodes.find? (fun n => n.parent = none)).map (fun n => n.id)

/-- Python `min` over a nonempty string list (first minimum wins). -/
def minString : List String → String
  | [] => ""
  | h :: t => t.foldl (fun a b => if strLt b a then b else a) h

/-- `min_leaf_name(u)`: minimal `nodes[x].name or x` over the leaves below
`u`. -/
def minLeafName (nodes : List TNode) (u : String) : String :=
  minString ((collectLeaves nodes (nodes.length + 1) u).map (fun x =>
    let n := getNode nodes x
    if n.name = "" then x else n.name))

/-- Stable insertion into a key-sorted list (equal keys keep earlier
elements first, as Python's stable sort does). -/
def insertByKey (key : String → String) (x : String) : List String → List String
  | [] => [x]
  | h :: t => if strLt (key x) (key h) then x :: h :: t else h :: insertByKey key x t

/-- Stable sort by key (models `list.sort(key=...)`). -/
def sortByKey (key : String → String) (l : List String) : List String :=
  l.foldl (fun acc x => insertByKey key x acc) []

/-- `_sort_children_for_no_crossing(nodes)`.  Sorting one node's children
does not change any other node's minimal leaf name (the leaf name set is
order-independent), so the keys are computed against the original table. -/
def sortChildrenAll (nodes : List TNode) : List TNode :=
  nodes.map (fun n =>
    if n.children = [] then n
    else { n with children := sortByKey (fun c => minLeafName nodes c) n.children })

/-- The `while stack` loop of `compute_cumdist`.  The Python list used as a
stack (append/pop at the end) is modelled with the head as the top, so
pushing `children` in order corresponds to prepending `children.reverse`. -/
def cumdistLoop (nodes : List TNode) : ℕ → List (String × ℚ) → List String → List (String × ℚ)
  | 0, dist, _ => dist
  | _, dist, [] => dist
  | fuel + 1, dist, u :: stack =>
    let du := (dist.lookup u).getD 0
    let cs := (getNode nodes u).children
    let dist2 := cs.foldl (fun d c => setEntry d c (du + max 0 (getNode nodes c).blen)) dist
    cumdistLoop nodes fuel dist2 (cs.reverse ++ stack)

/-- `compute_cumdist(nodes, root)`. -/
def computeCumdist (nodes : List TNode) (root : String) : List (String × ℚ) :=
  cumdistLoop nodes (nodes.length + 1) [(root, 0)] [root]

/-- The preorder traversal loop of `assign_y_equal_leaf_spacing` (explicit
stack with a visited set; children pushed in order, popped in reverse). -/
def orderLoop (nodes : List TNode) : ℕ → List String → List String → List String → List String
  | 0, _, order, _ => order
  | _, [], order, _ => order
  | fuel + 1, u :: stack, order, visited =>
    let cs := ((getNode nodes u).children).filter (fun c => !(visited.contains c))
    orderLoop nodes fuel (cs.reverse ++ stack) (order ++ [u]) (visited ++ [u])

/-- `assign_y_equal_leaf_spacing(nodes, leaf_step)`.  Returns the node table
with children re-sorted (the Python function mutates it in place) together
with the id → y mapping. -/
def assignY (nodes : List TNode) (leaf_step : ℚ) : List TNode × List (String × ℚ) :=
  let root := (findRoot nodes).getD ""
  let nodes2 := sortChildrenAll nodes
  let leaves := collectLeaves nodes2 (nodes2.length + 1) root
  let y0 := leaves.enum.map (fun e => (e.2, (e.1 : ℚ) * leaf_step))
  let order := orderLoop nodes2 (nodes2.length + 1) [root] [] []
  let y := order.reverse.foldl (fun (y : List (String × ℚ)) u =>
    let n := getNode nodes2 u
    if n.children ≠ [] then
      setEntry y u ((n.children.map (fun c => (y.lookup c).getD 0)).foldl (· + ·) 0
        / (n.children.length : ℚ))
    else if (y.lookup u).isNone then setEntry y u 0 else y) y0
  (nodes2, y)

/-! ### Layout (`build_display_graph`) -/

/-- Geometry and appearance constants of `tree_algo.py`. -/
def X_SCALE_PX : ℚ := 140
def MIN_STEM_GAP_PX : ℚ := 56
def PARENT_STUB_PX : ℚ := 20
def WEIGHTED_STUB_PX : ℚ := 40
def LEAF_Y_STEP_PX : ℚ := 400
def TIP_PAD_PX : ℚ := 40
def SIZE_LEAF_MARKER : ℚ := 20
def SIZE_INTERNAL : ℚ := 6
def SIZE_BEND : ℚ := 3
def SIZE_LEAF_REAL : ℚ := 8
def COLOR_LEAF : String := "#f5d76e"
def COLOR_INTERNAL : String := "#8ab4f8"
def COLOR_BEND : String := "#9aa0a6"
def COLOR_LINK : String := "#97A1A9"

/-- The rounding helper `q(v) = float(f"{v:.6f}")`: round to six decimal
places.  (Exact half-way values round half-to-even in Python; no input used
below sits on a half-way point.) -/
def q6 (v : ℚ) : ℚ := ((v * 1000000 + 1 / 2).floor : ℤ) / 1000000

/-- A row of the points table. -/
structure Point where
  id : ℕ
  x : ℚ
  y : ℚ
  size : ℚ
  color : String
  label : String
  kind : String
deriving DecidableEq, Repr

instance : Inhabited Point := ⟨⟨0, 0, 0, 0, "", "", ""⟩⟩

/-- A row of the links table. -/
structure Link where
  source : ℕ
  target : ℕ
  color : String
deriving DecidableEq, Repr

/-- The mutable emission state of `build_display_graph`: the two tables,
the id counter, the bend-point cache and the link-dedup cache. -/
structure LayoutState where
  pts : List Point := []
  links : List Link := []
  nextId : ℕ := 0
  pointCache : List ((String × ℚ × ℚ) × ℕ) := []
  linkCache : List (ℕ × ℕ) := []
deriving Repr

/-- `add_point(...)`.  Returns the new state and the id of the (possibly
cached) point. -/
def addPoint (st : LayoutState) (kind : String) (x yv : ℚ) (label : String)
    (color : Option String) (size : Option ℚ) (cacheBend : Bool) : LayoutState × ℕ :=
  let xq := q6 x
  let yq := q6 yv
  match (if cacheBend then
           (if kind = "bend" then st.pointCache.lookup (kind, xq, yq) else none)
         else none) with
  | some pid => (st, pid)
  | none =>
    let pid := st.nextId
    let sz := size.getD
      (if kind = "leaf" then SIZE_LEAF_REAL
       else if kind = "leaf_marker" then SIZE_LEAF_MARKER
       else if kind = "internal" then SIZE_INTERNAL
       else if kind = "bend" then SIZE_BEND
       else 4)
    let col := color.getD
      (if kind = "leaf" || kind = "leaf_marker" then COLOR_LEAF
       else if kind = "internal" then COLOR_INTERNAL
       else COLOR_BEND)
    let pt : Point := ⟨pid, xq, yq, sz, col, label, kind⟩
    ({ st with
       pts := st.pts ++ [pt]
       nextId := pid + 1
       pointCache := if cacheBend then
                       (if kind = "bend" then st.pointCache ++ [((kind, xq, yq), pid)]
                        else st.pointCache)
                     else st.pointCache }, pid)

/-- `add_link(s, t)`, deduplicating on the `(source, target)` key. -/
def addLink (st : LayoutState) (s t : ℕ) (color : Option String) : LayoutState :=
  if (s, t) ∈ st.linkCache then st
  else { st with
         links := st.links ++ [⟨s, t, color.getD COLOR_LINK⟩]
         linkCache := st.linkCache ++ [(s, t)] }

/-- `pts[id_to_idx[pid]]["x"] = v`: point ids equal their position in the
table when assigned, so updating by id is the index update of the source. -/
def setPointX (st : LayoutState) (pid : ℕ) (v : ℚ) : LayoutState :=
  { st with pts := st.pts.map (fun p => if p.id = pid then { p with x := v } else p) }

/-- Point of the table with the given id (never absent where used). -/
def getPointById (st : LayoutState) (pid : ℕ) : Point :=
  (st.pts.find? (fun p => p.id = pid)).getD default

/-- Sorted-set insertion (strictly increasing result). -/
def insSorted (x : ℚ) : List ℚ → List ℚ
  | [] => [x]
  | h :: t => if x < h then x :: h :: t else if x = h then h :: t else h :: insSorted x t

/-- `sorted({...})`: deduplicate and sort ascending. -/
def sortDedup (l : List ℚ) : List ℚ := l.foldl (fun acc x => insSorted x acc) []

/-- The left-to-right stem spreading sweep: each output is
`max(raw, last + min_level_gap)`, threading `last` exactly as the source
loop does. -/
def spreadSweep (gap : ℚ) : List ℚ → Option ℚ → List ℚ
  | [], _ => []
  | x :: xs, none => x :: spreadSweep gap xs (some x)
  | x :: xs, some l =>
    let s := max x (l + gap)
    s :: spreadSweep gap xs (some s)

/-- Cumulative distances keyed from the discovered root. -/
def cumdistOf (nodes : List TNode) : List (String × ℚ) :=
  computeCumdist nodes ((findRoot nodes).getD "")

/-- `dist_px[u] = dist[u] * x_scale`. -/
def distPxOf (nodes : List TNode) (x_scale : ℚ) (u : String) : ℚ :=
  ((cumdistOf nodes).lookup u).getD 0 * x_scale

/-- `raw_stems = sorted({dist_px[u] + parent_stub for u in nodes})`. -/
def rawStemsOf (nodes : List TNode) (x_scale parent_stub : ℚ) : List ℚ :=
  sortDedup (nodes.map (fun n => distPxOf nodes x_scale n.id + parent_stub))

/-- The spread stems in raw-stem order. -/
def spreadStemsOf (nodes : List TNode) (x_scale parent_stub min_level_gap : ℚ) : List ℚ :=
  spreadSweep min_level_gap (rawStemsOf nodes x_scale parent_stub) none

/-- `stem_map`: rounded raw stem → spread stem. -/
def stemMapOf (nodes : List TNode) (x_scale parent_stub min_level_gap : ℚ) : List (ℚ × ℚ) :=
  ((rawStemsOf nodes x_scale parent_stub).map q6).zip
    (spreadStemsOf nodes x_scale parent_stub min_level_gap)

/-- `stem_x(u)`: lookup through the rounded key (always present). -/
def stemXOf (nodes : List TNode) (x_scale parent_stub min_level_gap : ℚ) (u : String) : ℚ :=
  ((stemMapOf nodes x_scale parent_stub min_level_gap).lookup
    (q6 (distPxOf nodes x_scale u + parent_stub))).getD 0

/-- Step 3 of the layout: one point per logical node at the stem-aligned x,
accumulating the `node_id_actual` map. -/
def nodePointStep (stemX yOf : String → ℚ) (acc : LayoutState × List (String × ℕ))
    (n : TNode) : LayoutState × List (String × ℕ) :=
  let kind := if n.children = [] then "leaf" else "internal"
  let label := if n.name ≠ "" then n.name else if kind = "leaf" then n.id else ""
  let ex := q6 (stemX n.id)
  let xd := q6 (ex - PARENT_STUB_PX)
  let r := addPoint acc.1 kind xd (yOf n.id) label none none false
  (r.1, acc.2 ++ [(n.id, r.2)])

/-- Step 3 as a fold of `nodePointStep` over the node table. -/
def nodePointsGo (stemX yOf : String → ℚ) (nodes2 : List TNode)
    (acc : LayoutState × List (String × ℕ)) : LayoutState × List (String × ℕ) :=
  nodes2.foldl (nodePointStep stemX yOf) acc

/-- Step 3 from the empty accumulator. -/
def nodePointsStage (stemX yOf : String → ℚ) (nodes2 : List TNode) (st : LayoutState) :
    LayoutState × List (String × ℕ) :=
  nodePointsGo stemX yOf nodes2 (st, [])

/-- `EPS = 1e-6`. -/
def EPS : ℚ := 1 / 1000000

/-- Step 4 of the layout: per parent/child edge, move the child to its
weighted x, emit the elbow bend(s) and the orthogonal edges. -/
def edgesStage (stemX yOf : String → ℚ) (blenOf : String → ℚ) (x_scale : ℚ)
    (nodes2 : List TNode) (nia : List (String × ℕ)) (st : LayoutState) : LayoutState :=
  nodes2.foldl (fun st u =>
    let ex := q6 (stemX u.id)
    let yParent := yOf u.id
    u.children.foldl (fun st c =>
      let yChild := yOf c
      let trueLen := max 0 (blenOf c) * x_scale
      let childPid := (nia.lookup c).getD 0
      let st := setPointX st childPid (q6 (ex + WEIGHTED_STUB_PX + trueLen))
      let r := addPoint st "bend" ex yParent "" none none true
      let st := addLink r.1 ((nia.lookup u.id).getD 0) r.2 none
      if |yParent - yChild| > EPS then
        let r2 := addPoint st "bend" ex yChild "" none none true
        let st := addLink r2.1 r.2 r2.2 none
        addLink st r2.2 childPid none
      else
        addLink st r.2 childPid none) st) st

/-- Step 5 of the layout: the right-aligned leaf markers and their edges. -/
def markersStage (tip_pad : ℚ) (nodes2 : List TNode) (nia : List (String × ℕ))
    (st : LayoutState) : LayoutState :=
  let leaves := (nodes2.filter (fun n => n.children = [])).map (fun n => n.id)
  let maxLeafX :=
    match leaves.map (fun lf => (getPointById st ((nia.lookup lf).getD 0)).x) with
    | [] => 0
    | h :: t => t.foldl (fun a b => max a b) h
  let xTip := maxLeafX + tip_pad
  leaves.foldl (fun st lf =>
    let leafRow := getPointById st ((nia.lookup lf).getD 0)
    let r := addPoint st "leaf_marker" xTip leafRow.y leafRow.label (some COLOR_LEAF)
      (some SIZE_LEAF_MARKER) false
    addLink r.1 r.2 leafRow.id none) st

/-- `build_display_graph(nodes, ...)`: the full layout pipeline, returning
the points and links tables. -/
def buildDisplayGraph (nodes : List TNode)
    (leaf_step parent_stub tip_pad x_scale min_level_gap : ℚ) : List Point × List Link :=
  let a := assignY nodes leaf_step
  let nodes2 := a.1
  let yOf : String → ℚ := fun u => (a.2.lookup u).getD 0
  let stemX : String → ℚ := fun u => stemXOf nodes x_scale parent_stub min_level_gap u
  let blenOf : String → ℚ := fun c => (getNode nodes2 c).blen
  let r := nodePointsStage stemX yOf nodes2 {}
  let st := edgesStage stemX yOf blenOf x_scale nodes2 r.2 r.1
  let st := markersStage tip_pad nodes2 r.2 st
  (st.pts, st.links)

/-! ### Job orchestrator (`app_custom.py`) -/

/-- The fields of a `Job` record that the result endpoint reads.
`resultFile` is `some bytes` when `result_path` is set and the file exists
on disk. -/
structure Job where
  done : Bool
  error : Option String
  resultFile : Option String
  tempInputPath : String
deriving DecidableEq, Repr

/-- A fresh job as registered by `POST /api/v2/graph/start` before its
worker thread runs. -/
def startJob (path : String) : Job :=
  { done := false, error := none, resultFile := none, tempInputPath := path }

/-- An HTTP response of the result endpoint: either the gzipped payload
file or a `{error: msg}` body with a status code. -/
inductive Resp where
  | payload (bytes : String) : Resp
  | err (msg : String) (status : ℕ) : Resp
deriving DecidableEq, Repr

/-- `get_job_result(job_id)` (`app_custom.py`), with `job?` the result of
`JOBS.get(job_id)`. -/
def getJobResult (job? : Option Job) : Resp :=
  match job? with
  | none => .err "Job not found" 404
  | some j =>
    if j.done = false then .err "Job not ready" 400
    else
      match j.error with
      | some e => .err e 500
      | none =>
        match j.resultFile with
        | none => .err "No result data on disk" 500
        | some p => .payload p

/-- A Python `TypeError` raised while binding call arguments. -/
inductive CallErr where
  | tooManyPositional : CallErr
  | multipleValues (nm : String) : CallErr
  | unexpectedKeyword (nm : String) : CallErr
deriving DecidableEq, Repr

/-- CPython call binding for a plain parameter list: positional arguments
fill parameters left to right; a keyword that names an already
positionally-filled parameter raises `TypeError: got multiple values`,
and an unknown keyword raises `TypeError: unexpected keyword argument`. -/
def bindCall (params : List String) (npos : ℕ) (kw : List String) : Except CallErr Unit :=
  if npos > params.length then .error .tooManyPositional
  else
    match kw.find? (fun k => (params.take npos).contains k) with
    | some k => .error (.multipleValues k)
    | none =>
      match kw.find? (fun k => !(params.contains k)) with
      | some k => .error (.unexpectedKeyword k)
      | none => .ok ()

/-- The parameter list of `build_graph` (`tree_algo.py` line 539): the only
parameter is `progress_callback`. -/
def buildGraphParams : List String := ["progress_callback"]

/-- The module constant `NEWICK` that `build_graph` reads its input from. -/
def NEWICK : String := "/Users/gushchin_a/Downloads/Chond 10Cal 10k TreeSet.tre"

/-- Binding of the worker's call
`build_graph(job.temp_input_path, progress_callback=callback)`
(`app_custom.py` line 131) against `build_graph`'s parameter list. -/
def workerBuildCall : Except CallErr Unit :=
  bindCall buildGraphParams 1 ["progress_callback"]

/-- `compute_worker`: the `try` body starts with the `build_graph` call;
any exception is caught, recorded in `job.error`, and a terminal
`("error", 0.0)` event is posted; `finally` sets the done flag.  The
success branch stands for the rest of the pipeline and is provably never
taken because the call binding fails. -/
def computeWorker (j : Job) : Job × List (String × ℚ) :=
  match workerBuildCall with
  | .error _ => ({ j with error := some "TypeError", done := true }, [("error", 0)])
  | .ok _ => ({ j with done := true }, [("complete", 100)])

/-! ### Concrete inputs used by the theorems -/

/-- The single-quote character (code point 39). -/
def sq : Char := Char.ofNat 39

/-- The quoted-labels input of the spec scenario:
`('Homo sapiens':1,'Pan<TAB>troglodytes':1);`. -/
def quotedInput : String :=
  String.mk (['('] ++ [sq] ++ "Homo sapiens".data ++ [sq] ++ ":1,".data ++ [sq]
    ++ "Pan\ttroglodytes".data ++ [sq] ++ ":1);".data)

/-- The first leaf name the parser actually stores for `quotedInput`
(outer quotes retained). -/
def homoQuoted : String := String.mk ([sq] ++ "Homo sapiens".data ++ [sq])

/-- The second leaf name the parser actually stores for `quotedInput`. -/
def panQuoted : String := String.mk ([sq] ++ "Pan\ttroglodytes".data ++ [sq])

/-- Replay of the parse loop over a token list tracking only the group
depth `d` (the parent-stack length), whether a pending length is buffered,
and whether `last` is set.  It is `true` exactly when the loop, started at
that abstract state, reaches a `)` with all groups closed and nothing
pending — the configuration in which `stack.pop()` raises `IndexError` —
having neither errored on a length token nor stopped at `;` before. -/
def unmatchedB : List (List Char) → ℕ → Bool → Bool → Bool
  | [], _, _, _ => false
  | t :: ts, d, pend, lastb =>
    if t = ['('] then unmatchedB ts (d + 1) pend false
    else if t = [','] then unmatchedB ts d false false
    else if t = [')'] then
      match d with
      | 0 => !pend
      | dd + 1 => unmatchedB ts dd false false
    else if t = [';'] then false
    else if t.head? = some ':' then
      (parseFloatChars (trimChars t.tail)).isSome &&
        unmatchedB ts d (if lastb then pend else true) lastb
    else unmatchedB ts d false true

/-- Shape invariant of the parent stack: the bottom entry is the initial
`None` and every entry above it is a real node id. -/
def stackOk : List (Option String) → Prop
  | [] => True
  | [x] => x = none
  | x :: y :: t => x ≠ none ∧ stackOk (y :: t)

/-- Parse state reached after the first `(` of an input (used to exercise
the `)` transition on its own). -/
def c4St : PState :=
  { nodes := [{ id := "n1" }], stack := [none], last := none, nid := 1,
    currentParent := some "n1", pendingName := none, pendingLen := none }

/-- The state `closeStep` produces from `c4St`. -/
def c4StClosed : PState :=
  { nodes := [{ id := "n1" }], stack := [], last := none, nid := 1,
    currentParent := none, pendingName := none, pendingLen := none }

/-- Node table parsed from `(A:1,B:2);`. -/
def c2Nodes : List TNode := (parseNewick "(A:1,B:2);" none).toOption.getD []

/-- Points table of the two-leaf scenario under the default geometry. -/
def c2Pts : List Point :=
  (buildDisplayGraph c2Nodes LEAF_Y_STEP_PX PARENT_STUB_PX TIP_PAD_PX X_SCALE_PX
    MIN_STEM_GAP_PX).1

/-- Node table parsed from `(A:0,B:0);`. -/
def c6Nodes : List TNode := (parseNewick "(A:0,B:0);" none).toOption.getD []

/-- Layout of the zero-length scenario under the default geometry. -/
def c6Out : List Point × List Link :=
  buildDisplayGraph c6Nodes LEAF_Y_STEP_PX PARENT_STUB_PX TIP_PAD_PX X_SCALE_PX MIN_STEM_GAP_PX

/-- Node table parsed from `(A:-1,B:1);`. -/
def c5Nodes : List TNode := (parseNewick "(A:-1,B:1);" none).toOption.getD []

/-- Node table parsed from `(A:1);`. -/
def c8Nodes : List TNode := (parseNewick "(A:1);" none).toOption.getD []

/-- Layout of `(A:1);` with a non-default `parent_stub = 100` (all other
parameters at their defaults). -/
def c8Out : List Point × List Link :=
  buildDisplayGraph c8Nodes LEAF_Y_STEP_PX 100 TIP_PAD_PX X_SCALE_PX MIN_STEM_GAP_PX

/-! ### Helper lemmas -/

theorem ratFloor_eq_intFloor (v : ℚ) : v.floor = ⌊v⌋ := by
  rw [Rat.floor_def', Rat.floor_def]

theorem q6_idem (v : ℚ) : q6 (q6 v) = q6 v := by
  unfold q6
  rw [ratFloor_eq_intFloor, ratFloor_eq_intFloor]
  have h1 : ((((v * 1000000 + 1 / 2).floor : ℤ) : ℚ) / 1000000 * 1000000)
      = (((v * 1000000 + 1 / 2).floor : ℤ) : ℚ) :=
    div_mul_cancel₀ _ (by norm_num)
  rw [ratFloor_eq_intFloor] at h1
  rw [h1]
  have h2 : ⌊((⌊v * 1000000 + 1 / 2⌋ : ℤ) : ℚ) + 1 / 2⌋ = ⌊v * 1000000 + 1 / 2⌋ := by
    rw [Int.floor_int_add]
    norm_num
  rw [h2]

theorem closeStep_last_none (st st2 : PState) (h : closeStep st = .ok st2) :
    st2.last = none := by
  unfold closeStep at h
  rcases hpn : st.pendingName with _ | nm <;> rw [hpn] at h
  · rcases hpl : st.pendingLen with _ | L <;> rw [hpl] at h
    · rcases hs : st.stack with _ | ⟨x, rest⟩ <;> rw [hs] at h
      · exact absurd h (by simp)
      · simp only [Except.ok.injEq] at h
        rw [← h]
    · rcases hcp : st.currentParent with _ | p <;> rw [hcp] at h
      · exact absurd h (by simp)
      · rcases hs : st.stack with _ | ⟨x, rest⟩ <;> rw [hs] at h
        · exact absurd h (by simp)
        · simp only [Except.ok.injEq] at h
          rw [← h]
  · rcases hcp : st.currentParent with _ | p <;> rw [hcp] at h
    · exact absurd h (by simp)
    · rcases hpl : st.pendingLen with _ | L <;> rw [hpl] at h
      · rcases hs : st.stack with _ | ⟨x, rest⟩ <;> rw [hs] at h
        · exact absurd h (by simp)
        · simp only [Except.ok.injEq] at h
          rw [← h]
      · rcases hs : st.stack with _ | ⟨x, rest⟩ <;> rw [hs] at h
        · exact absurd h (by simp)
        · simp only [Except.ok.injEq] at h
          rw [← h]

/-! ### Claim theorems -/

/-- Claim C1: the worker call `build_graph(job.temp_input_path,
progress_callback=callback)` binds a positional argument and the keyword
`progress_callback` against the single parameter `progress_callback`, a
`TypeError`; the worker records the error, posts a terminal `error` event,
and the result endpoint never returns a payload for such a job. -/
theorem claim_C1 (path : String) :
    workerBuildCall = .error (.multipleValues "progress_callback") ∧
    buildGraphParams = ["progress_callback"] ∧
    (computeWorker (startJob path)).1.done = true ∧
    (computeWorker (startJob path)).1.error = some "TypeError" ∧
    (computeWorker (startJob path)).1.resultFile = none ∧
    (computeWorker (startJob path)).2 = [("error", 0)] ∧
    ∀ b, getJobResult (some (computeWorker (startJob path)).1) ≠ .payload b := by
  have hres : getJobResult (some (computeWorker (startJob path)).1) = .err "TypeError" 500 :=
    by with_unfolding_all rfl
  refine ⟨by with_unfolding_all rfl, rfl, by with_unfolding_all rfl, by with_unfolding_all rfl,
    by with_unfolding_all rfl, by with_unfolding_all rfl, ?_⟩
  intro b h
  rw [hres] at h
  exact Resp.noConfusion h

/-- Claim C1, witness: the worker outcome at a concrete upload path. -/
theorem claim_C1_witness :
    (computeWorker (startJob "up.nwk")).1.error = some "TypeError" :=
  (claim_C1 "up.nwk").2.2.2.1

/-- Claim C2: for `(A:1,B:2);` with the default geometry parameters the
layout produces 3 logical nodes, the root point at (0, 200), leaf A at
(200, 0), leaf B at (340, 400), bend points at x = 20 with y = 0 and
y = 400, and two leaf_marker points at x = 380. -/
theorem claim_C2 :
    c2Nodes.length = 3 ∧
    c2Pts[0]? = some ⟨0, 0, 200, SIZE_INTERNAL, COLOR_INTERNAL, "", "internal"⟩ ∧
    c2Pts[1]? = some ⟨1, 200, 0, SIZE_LEAF_REAL, COLOR_LEAF, "A", "leaf"⟩ ∧
    c2Pts[2]? = some ⟨2, 340, 400, SIZE_LEAF_REAL, COLOR_LEAF, "B", "leaf"⟩ ∧
    c2Pts[4]? = some ⟨4, 20, 0, SIZE_BEND, COLOR_BEND, "", "bend"⟩ ∧
    c2Pts[5]? = some ⟨5, 20, 400, SIZE_BEND, COLOR_BEND, "", "bend"⟩ ∧
    (c2Pts.filter (fun p => p.kind = "leaf_marker")).map Point.x = [380, 380] :=
  of_decide_eq_true (by with_unfolding_all rfl)

/-- Claim C4, counterexample: parsing `(A,B)Label;` does not attach `Label`
to the internal parent of A and B — that node keeps an empty name, and
`Label` becomes a fresh leaf node. -/
theorem claim_C4_cex :
    (getNode ((parseNewick "(A,B)Label;" none).toOption.getD []) "n1").name = "" ∧
    (getNode ((parseNewick "(A,B)Label;" none).toOption.getD []) "n1").children = ["n2", "n3"] ∧
    (getNode ((parseNewick "(A,B)Label;" none).toOption.getD []) "n1").name ≠ "Label" :=
  of_decide_eq_true (by with_unfolding_all rfl)

/-- Claim C4, amended: the `)` transition clears the `last_emitted` cursor
(it never points at the just-closed node), so a name token immediately
after `)` always creates a new leaf; on `(A,B)Label;` the group node stays
unnamed and `Label` becomes a parentless leaf, unified with the group under
the synthetic root `root0`. -/
theorem claim_C4 :
    (∀ st st2 : PState, closeStep st = .ok st2 → st2.last = none) ∧
    ((parseNewick "(A,B)Label;" none).toOption.getD []).map TNode.id
      = ["n1", "n2", "n3", "n4", "root0"] ∧
    (getNode ((parseNewick "(A,B)Label;" none).toOption.getD []) "n1").name = "" ∧
    (getNode ((parseNewick "(A,B)Label;" none).toOption.getD []) "n4").name = "Label" ∧
    (getNode ((parseNewick "(A,B)Label;" none).toOption.getD []) "n4").children = [] ∧
    (getNode ((parseNewick "(A,B)Label;" none).toOption.getD []) "n4").parent = some "root0" ∧
    (getNode ((parseNewick "(A,B)Label;" none).toOption.getD []) "root0").children
      = ["n1", "n4"] := by
  refine ⟨closeStep_last_none, ?_⟩
  exact of_decide_eq_true (by with_unfolding_all rfl)

/-- Claim C4, witness: the amended transition rule applied to the concrete
state reached after one `(`. -/
theorem claim_C4_witness : c4StClosed.last = none :=
  claim_C4.1 c4St c4StClosed (by with_unfolding_all rfl)

/-- Claim C5, counterexample: `(A:-1,B:1);` stores the negative length as
is — node `n2` has `blen = -1 < 0` in the returned table. -/
theorem claim_C5_cex :
    (getNode c5Nodes "n2").blen = -1 ∧ ¬(0 ≤ (getNode c5Nodes "n2").blen) :=
  of_decide_eq_true (by with_unfolding_all rfl)

/-- Claim C5, amended: a negative `:<num>` value is stored unmodified in the
node table; the clamp `max(0, blen)` is applied where the length is read:
`compute_cumdist` yields distance 0 for `n2`, and the layout places leaf A
at `x = parent_stub + weighted_stub + 0 = 60`. -/
theorem claim_C5 :
    (getNode c5Nodes "n2").blen = -1 ∧
    (cumdistOf c5Nodes).lookup "n2" = some 0 ∧
    ((buildDisplayGraph c5Nodes LEAF_Y_STEP_PX PARENT_STUB_PX TIP_PAD_PX X_SCALE_PX
      MIN_STEM_GAP_PX).1)[1]?
      = some ⟨1, 60, 0, SIZE_LEAF_REAL, COLOR_LEAF, "A", "leaf"⟩ :=
  of_decide_eq_true (by with_unfolding_all rfl)

/-- Claim C6, counterexample: for `(A:0,B:0);` under the default geometry
the parent-to-child paths do have a second bend — a bend point at (20, 0)
exists, the link bend-top → bend-bot → leaf A is emitted, and no direct
link from the top bend (id 3) to leaf A (id 1) exists. -/
theorem claim_C6_cex :
    (c6Out.1)[4]? = some ⟨4, 20, 0, SIZE_BEND, COLOR_BEND, "", "bend"⟩ ∧
    (c6Out.2.map (fun l => (l.source, l.target))).contains (4, 1) = true ∧
    (c6Out.2.map (fun l => (l.source, l.target))).contains (3, 1) = false :=
  of_decide_eq_true (by with_unfolding_all rfl)

/-- Claim C6, amended: for `(A:0,B:0);` both leaves are placed at
`x = parent_stub + weighted_stub = 60`, and since the parent y (200)
differs from each child y (0 and 400) by more than 1e-6, each
parent-to-child path carries a second bend: the edges are exactly
root → bend(20,200) → bend(20,0) → A and root → bend(20,200) →
bend(20,400) → B, plus the two marker edges. -/
theorem claim_C6 :
    (c6Out.1)[1]? = some ⟨1, 60, 0, SIZE_LEAF_REAL, COLOR_LEAF, "A", "leaf"⟩ ∧
    (c6Out.1)[2]? = some ⟨2, 60, 400, SIZE_LEAF_REAL, COLOR_LEAF, "B", "leaf"⟩ ∧
    (c6Out.1)[3]? = some ⟨3, 20, 200, SIZE_BEND, COLOR_BEND, "", "bend"⟩ ∧
    (c6Out.1)[4]? = some ⟨4, 20, 0, SIZE_BEND, COLOR_BEND, "", "bend"⟩ ∧
    (c6Out.1)[5]? = some ⟨5, 20, 400, SIZE_BEND, COLOR_BEND, "", "bend"⟩ ∧
    c6Out.2.map (fun l => (l.source, l.target))
      = [(0, 3), (3, 4), (4, 1), (3, 5), (5, 2), (6, 1), (7, 2)] :=
  of_decide_eq_true (by with_unfolding_all rfl)

/-- Claim C9: the result endpoint returns the payload exactly for a found,
finished job with no recorded error and a result file on disk, and
otherwise answers 404 `Job not found` for an unknown id, 400 `Job not
ready` before completion, and 500 with the recorded reason after a worker
error. -/
theorem claim_C9 :
    getJobResult none = .err "Job not found" 404 ∧
    (∀ j : Job, j.done = false → getJobResult (some j) = .err "Job not ready" 400) ∧
    (∀ (j : Job) (r : String), j.done = true → j.error = some r →
      getJobResult (some j) = .err r 500) ∧
    (∀ (j? : Option Job) (p : String),
      getJobResult j? = .payload p ↔
        ∃ j, j? = some j ∧ j.done = true ∧ j.error = none ∧ j.resultFile = some p) := by
  refine ⟨rfl, ?_, ?_, ?_⟩
  · intro j h
    simp [getJobResult, h]
  · intro j r hd he
    simp [getJobResult, hd, he]
  · intro j? p
    constructor
    · intro h
      match j? with
      | none => exact absurd h (by simp [getJobResult])
      | some j =>
        refine ⟨j, rfl, ?_⟩
        rcases hd : j.done with _ | _
        · simp [getJobResult, hd] at h
        · rcases he : j.error with _ | e
          · rcases hr : j.resultFile with _ | b
            · simp [getJobResult, hd, he, hr] at h
            · simp [getJobResult, hd, he, hr] at h
              exact ⟨rfl, rfl, by simp [hr, h]⟩
          · simp [getJobResult, hd, he] at h
    · rintro ⟨j, rfl, hd, he, hr⟩
      simp [getJobResult, hd, he, hr]

/-- Claim C9, witness: the three error branches and the payload branch at
concrete jobs. -/
theorem claim_C9_witness :
    getJobResult (some (startJob "t")) = .err "Job not ready" 400 ∧
    getJobResult (some ⟨true, some "boom", none, "t"⟩) = .err "boom" 500 ∧
    getJobResult (some ⟨true, none, some "gz", "t"⟩) = .payload "gz" :=
  ⟨claim_C9.2.1 _ rfl, claim_C9.2.2.1 _ "boom" rfl rfl,
   (claim_C9.2.2.2 _ "gz").mpr ⟨_, rfl, rfl, rfl, rfl⟩⟩

/-- Every output of the spreading sweep dominates its raw input. -/
theorem spreadSweep_forall2_le (gap : ℚ) :
    ∀ (xs : List ℚ) (l? : Option ℚ), List.Forall₂ (· ≤ ·) xs (spreadSweep gap xs l?) := by
  intro xs
  induction xs with
  | nil => intro l?; cases l? <;> exact List.Forall₂.nil
  | cons x t ih =>
    intro l?
    cases l? with
    | none => exact List.Forall₂.cons (le_refl x) (ih (some x))
    | some l => exact List.Forall₂.cons (le_max_left x (l + gap)) (ih (some (max x (l + gap))))

/-- The first output of a sweep seeded with `last = l` is at least
`l + gap`. -/
theorem spreadSweep_head_ge (gap : ℚ) (xs : List ℚ) (l y : ℚ)
    (h : (spreadSweep gap xs (some l)).head? = some y) : l + gap ≤ y := by
  cases xs with
  | nil => exact absurd h (by simp [spreadSweep])
  | cons x t =>
    have hy : max x (l + gap) = y := by
      have := h
      simp only [spreadSweep, List.head?] at this
      exact Option.some.inj this
    rw [← hy]
    exact le_max_right x (l + gap)

/-- Adjacent sweep outputs differ by at least the gap. -/
theorem spreadSweep_chain_gap (gap : ℚ) :
    ∀ (xs : List ℚ) (l? : Option ℚ),
      List.Chain' (fun a b => a + gap ≤ b) (spreadSweep gap xs l?) := by
  intro xs
  induction xs with
  | nil => intro l?; cases l? <;> simp [spreadSweep]
  | cons x t ih =>
    intro l?
    cases l? with
    | none =>
      simp only [spreadSweep]
      rw [List.chain'_cons']
      exact ⟨fun y hy => spreadSweep_head_ge gap t x y (Option.mem_def.mp hy), ih (some x)⟩
    | some l =>
      simp only [spreadSweep]
      rw [List.chain'_cons']
      exact ⟨fun y hy => spreadSweep_head_ge gap t (max x (l + gap)) y (Option.mem_def.mp hy),
        ih (some (max x (l + gap)))⟩

/-- With a nonpositive gap and strictly increasing input, the sweep is the
identity whenever the seed lies below the first element. -/
theorem spreadSweep_id_of_nonpos (gap : ℚ) (hg : gap ≤ 0) :
    ∀ (xs : List ℚ) (l : ℚ), List.Chain' (· < ·) xs →
      (∀ x, xs.head? = some x → l ≤ x) → spreadSweep gap xs (some l) = xs := by
  intro xs
  induction xs with
  | nil => intro l _ _; rfl
  | cons x t ih =>
    intro l hc hh
    have hlx : l ≤ x := hh x rfl
    have hmax : max x (l + gap) = x := max_eq_left (by linarith)
    simp only [spreadSweep, hmax]
    rw [ih x (List.chain'_cons'.mp hc).2
      (fun x2 hx2 => le_of_lt ((List.chain'_cons'.mp hc).1 x2 (Option.mem_def.mpr hx2)))]

/-- Claim C7: with the distinct raw stems sorted ascending, the sweep
`spread[i] = max(raw[i], spread[i-1] + min_level_gap)` dominates the raw
values pointwise, is non-decreasing, and keeps adjacent differences at
least `min_level_gap`. -/
theorem claim_C7 (gap : ℚ) (raw : List ℚ) (hs : List.Chain' (· < ·) raw) :
    List.Forall₂ (· ≤ ·) raw (spreadSweep gap raw none) ∧
    List.Chain' (· ≤ ·) (spreadSweep gap raw none) ∧
    List.Chain' (fun a b => a + gap ≤ b) (spreadSweep gap raw none) := by
  refine ⟨spreadSweep_forall2_le gap raw none, ?_, spreadSweep_chain_gap gap raw none⟩
  rcases le_or_lt 0 gap with hg | hg
  · exact (spreadSweep_chain_gap gap raw none).imp (fun a b h => by linarith)
  · cases raw with
    | nil => simp [spreadSweep]
    | cons x t =>
      have ht : spreadSweep gap t (some x) = t :=
        spreadSweep_id_of_nonpos gap (le_of_lt hg) t x (List.chain'_cons'.mp hs).2
          (fun x2 hx2 => le_of_lt ((List.chain'_cons'.mp hs).1 x2 (Option.mem_def.mpr hx2)))
      simp only [spreadSweep, ht]
      exact hs.imp (fun a b h => le_of_lt h)

/-- Claim C7, witness: the sweep properties at the concrete raw stems
`[0, 10, 20]` with the default gap 56. -/
theorem claim_C7_witness :
    List.Forall₂ (· ≤ ·) [0, 10, 20] (spreadSweep 56 [0, 10, 20] none) ∧
    List.Chain' (· ≤ ·) (spreadSweep 56 [0, 10, 20] none) ∧
    List.Chain' (fun a b => a + 56 ≤ b) (spreadSweep 56 [0, 10, 20] none) :=
  claim_C7 56 [0, 10, 20]
    (by norm_num [List.chain'_cons, List.chain'_singleton])

/-- Uncached `add_point` appends one fresh point carrying the rounded
coordinates. -/
theorem addPoint_false_spec (st : LayoutState) (kind : String) (x yv : ℚ) (label : String)
    (color : Option String) (size : Option ℚ) :
    ∃ pt : Point, (addPoint st kind x yv label color size false).1.pts = st.pts ++ [pt] ∧
      pt.x = q6 x ∧ pt.y = q6 yv ∧ pt.kind = kind :=
  ⟨_, rfl, rfl, rfl, rfl⟩

/-- One node-point step appends one point at the display x
`q6(q6(stem_x(u)) - PARENT_STUB_PX)` — the module constant, not a
parameter. -/
theorem nodePointStep_spec (stemX yOf : String → ℚ) (acc : LayoutState × List (String × ℕ))
    (n : TNode) :
    ∃ pt : Point, (nodePointStep stemX yOf acc n).1.pts = acc.1.pts ++ [pt] ∧
      pt.kind = (if n.children = [] then "leaf" else "internal") ∧
      pt.x = q6 (q6 (stemX n.id) - PARENT_STUB_PX) ∧
      pt.y = q6 (yOf n.id) := by
  obtain ⟨pt, hpts, hx, hy, hk⟩ := addPoint_false_spec acc.1
    (if n.children = [] then "leaf" else "internal")
    (q6 (q6 (stemX n.id) - PARENT_STUB_PX)) (yOf n.id)
    (if n.name ≠ "" then n.name
     else if (if n.children = [] then "leaf" else "internal") = "leaf" then n.id else "")
    none none
  refine ⟨pt, hpts, hk, ?_, hy⟩
  rw [hx, q6_idem]

/-- Points already in the table survive the rest of the node-point fold. -/
theorem nodePointsGo_mono (stemX yOf : String → ℚ) :
    ∀ (nodes2 : List TNode) (acc : LayoutState × List (String × ℕ)) (p : Point),
      p ∈ acc.1.pts → p ∈ (nodePointsGo stemX yOf nodes2 acc).1.pts := by
  intro nodes2
  induction nodes2 with
  | nil => intro acc p hp; exact hp
  | cons m t ih =>
    intro acc p hp
    have hstep : nodePointsGo stemX yOf (m :: t) acc
        = nodePointsGo stemX yOf t (nodePointStep stemX yOf acc m) := rfl
    rw [hstep]
    apply ih
    obtain ⟨pt, hpts, _, _, _⟩ := nodePointStep_spec stemX yOf acc m
    rw [hpts]
    exact List.mem_append_left _ hp

/-- Claim C8, amended: for every node table, every stem/y assignment (hence
every geometry bundle) and every accumulator, the point emitted for a
logical node `u` sits at `x = q6(q6(stem_x(u)) - PARENT_STUB_PX)` — the
module constant 20, not the `parent_stub` of the passed bundle. -/
theorem claim_C8 (stemX yOf : String → ℚ) :
    ∀ (nodes2 : List TNode) (st : LayoutState) (nia : List (String × ℕ)) (n : TNode),
      n ∈ nodes2 →
      ∃ pt ∈ (nodePointsGo stemX yOf nodes2 (st, nia)).1.pts,
        pt.kind = (if n.children = [] then "leaf" else "internal") ∧
        pt.x = q6 (q6 (stemX n.id) - PARENT_STUB_PX) ∧
        pt.y = q6 (yOf n.id) := by
  intro nodes2
  induction nodes2 with
  | nil => intro st nia n hn; cases hn
  | cons m t ih =>
    intro st nia n hn
    have hstep : nodePointsGo stemX yOf (m :: t) (st, nia)
        = nodePointsGo stemX yOf t (nodePointStep stemX yOf (st, nia) m) := rfl
    rcases List.mem_cons.mp hn with rfl | hmem
    · obtain ⟨pt, hpts, hk, hx, hy⟩ := nodePointStep_spec stemX yOf (st, nia) n
      refine ⟨pt, ?_, hk, hx, hy⟩
      rw [hstep]
      apply nodePointsGo_mono
      rw [hpts]
      exact List.mem_append_right _ (List.mem_singleton.mpr rfl)
    · rw [hstep]
      obtain ⟨pt, hmem2, hrest⟩ :=
        ih (nodePointStep stemX yOf (st, nia) m).1 (nodePointStep stemX yOf (st, nia) m).2 n hmem
      exact ⟨pt, hmem2, hrest⟩

/-- Claim C8, witness: the amended emission rule at a one-node table with
stem 100 and y 0. -/
theorem claim_C8_witness :
    ∃ pt ∈ (nodePointsGo (fun _ => 100) (fun _ => 0) [{ id := "u" }] ({}, [])).1.pts,
      pt.kind = (if ({ id := "u" } : TNode).children = [] then "leaf" else "internal") ∧
      pt.x = q6 (q6 100 - PARENT_STUB_PX) ∧
      pt.y = q6 0 :=
  claim_C8 (fun _ => 100) (fun _ => 0) [{ id := "u" }] {} [] { id := "u" }
    (List.mem_singleton.mpr rfl)

/-- Claim C8, counterexample: laying out `(A:1);` with `parent_stub = 100`
emits the root point at x = 80 (the spread stem 100 minus the constant 20),
not at `stem_x(root) - parent_stub = 0` as the claim predicts. -/
theorem claim_C8_cex :
    stemXOf c8Nodes X_SCALE_PX 100 MIN_STEM_GAP_PX "n1" = 100 ∧
    (c8Out.1)[0]? = some ⟨0, 80, 0, SIZE_INTERNAL, COLOR_INTERNAL, "", "internal"⟩ ∧
    (80 : ℚ) ≠ 100 - 100 :=
  of_decide_eq_true (by with_unfolding_all rfl)

/-- Head of a `dropWhile` never satisfies the dropped predicate. -/
theorem head?_dropWhile_not {α : Type} (p : α → Bool) :
    ∀ (l : List α) (c : α), (l.dropWhile p).head? = some c → p c = false := by
  intro l
  induction l with
  | nil => intro c h; exact absurd h (by simp)
  | cons a t ih =>
    intro c h
    rw [List.dropWhile_cons] at h
    by_cases hp : p a = true
    · rw [if_pos hp] at h
      exact ih c h
    · rw [if_neg hp] at h
      obtain rfl : a = c := Option.some.inj h
      simpa using hp

/-- Dropping a prefix does not change the last element. -/
theorem getLast?_dropWhile {α : Type} (p : α → Bool) :
    ∀ l : List α, l.dropWhile p ≠ [] → (l.dropWhile p).getLast? = l.getLast? := by
  intro l
  induction l with
  | nil => intro h; exact absurd rfl h
  | cons a t ih =>
    intro h
    rw [List.dropWhile_cons] at h ⊢
    by_cases hp : p a = true
    · rw [if_pos hp] at h ⊢
      rw [ih h]
      have ht : t ≠ [] := by
        intro ht0
        rw [ht0] at h
        exact h rfl
      cases t with
      | nil => exact absurd rfl ht
      | cons b t2 => rw [List.getLast?_cons_cons]
    · rw [if_neg hp]

/-- The first character of a stripped string is not whitespace. -/
theorem trim_head_not_space (l : List Char) (c : Char)
    (h : (trimChars l).head? = some c) : isSpaceChar c = false := by
  unfold trimChars at h
  rw [List.head?_reverse] at h
  have hne : (l.dropWhile isSpaceChar).reverse.dropWhile isSpaceChar ≠ [] := by
    intro h0
    rw [h0] at h
    exact Option.noConfusion h
  rw [getLast?_dropWhile isSpaceChar _ hne, List.getLast?_reverse] at h
  exact head?_dropWhile_not isSpaceChar l c h

/-- The last character of a stripped string is not whitespace. -/
theorem trim_last_not_space (l : List Char) (c : Char)
    (h : (trimChars l).getLast? = some c) : isSpaceChar c = false := by
  unfold trimChars at h
  rw [List.getLast?_reverse] at h
  exact head?_dropWhile_not isSpaceChar _ c h

/-- Every token the tokenizer loop yields is some `tok.strip()`. -/
theorem tokenizeLoop_tokens_trim :
    ∀ (fuel : ℕ) (s : List Char) (ts : List (List Char)),
      tokenizeLoop fuel s = .ok ts → ∀ t ∈ ts, ∃ g, t = trimChars g := by
  intro fuel
  induction fuel with
  | zero =>
    intro s ts h t ht
    cases s with
    | nil =>
      obtain rfl : ([] : List (List Char)) = ts := Except.ok.inj h
      cases ht
    | cons a r => exact absurd h (by simp [tokenizeLoop])
  | succ fuel ih =>
    intro s ts h t ht
    cases s with
    | nil =>
      obtain rfl : ([] : List (List Char)) = ts := Except.ok.inj h
      cases ht
    | cons a r =>
      rw [show tokenizeLoop (fuel + 1) (a :: r)
          = (match matchAlt1 (a :: r) with
             | some (t0, r0) =>
               (match tokenizeLoop fuel r0 with
                | .ok ts0 => .ok (trimChars t0 :: ts0)
                | .error e => .error e)
             | none =>
               match matchAlt2 (a :: r) with
               | some (t0, r0) =>
                 (match tokenizeLoop fuel r0 with
                  | .ok ts0 => .ok (trimChars t0 :: ts0)
                  | .error e => .error e)
               | none =>
                 match matchAlt3 (a :: r) with
                 | some (t0, r0) =>
                   (match tokenizeLoop fuel r0 with
                    | .ok ts0 => .ok (trimChars t0 :: ts0)
                    | .error e => .error e)
                 | none =>
                   if isSpaceChar a then tokenizeLoop fuel r
                   else .error .valueErrorTokenize) from rfl] at h
      split at h
      · rename_i t0 r0 h1
        split at h
        · rename_i ts0 h4
          obtain rfl : trimChars t0 :: ts0 = ts := Except.ok.inj h
          rcases List.mem_cons.mp ht with rfl | hmem
          · exact ⟨t0, rfl⟩
          · exact ih _ ts0 h4 t hmem
        · exact absurd h (by simp)
      · rename_i h1
        split at h
        · rename_i t0 r0 h2
          split at h
          · rename_i ts0 h4
            obtain rfl : trimChars t0 :: ts0 = ts := Except.ok.inj h
            rcases List.mem_cons.mp ht with rfl | hmem
            · exact ⟨t0, rfl⟩
            · exact ih _ ts0 h4 t hmem
          · exact absurd h (by simp)
        · rename_i h2
          split at h
          · rename_i t0 r0 h3
            split at h
            · rename_i ts0 h4
              obtain rfl : trimChars t0 :: ts0 = ts := Except.ok.inj h
              rcases List.mem_cons.mp ht with rfl | hmem
              · exact ⟨t0, rfl⟩
              · exact ih _ ts0 h4 t hmem
            · exact absurd h (by simp)
          · rename_i h3
            by_cases hsp : isSpaceChar a = true
            · rw [if_pos hsp] at h
              exact ih r ts h t ht
            · rw [if_neg hsp] at h
              exact absurd h (by simp)

/-- Claim C3, amended: the tokenizer strips surrounding whitespace from
every token, but never strips quote characters — on the quoted-labels
scenario input the parsed leaf names keep their outer single quotes (with
interior characters verbatim). -/
theorem claim_C3 :
    (∀ (s : String) (ts : List (List Char)) (t : List Char),
      tokenizeNewick s = .ok ts → t ∈ ts →
      (∀ c, t.head? = some c → isSpaceChar c = false) ∧
      (∀ c, t.getLast? = some c → isSpaceChar c = false)) ∧
    ((parseNewick quotedInput none).toOption.getD []).map TNode.name
      = ["", homoQuoted, panQuoted] := by
  constructor
  · intro s ts t hok ht
    obtain ⟨g, rfl⟩ :=
      tokenizeLoop_tokens_trim ((trimChars s.data).length + 1) (trimChars s.data) ts hok t ht
    exact ⟨trim_head_not_space g, trim_last_not_space g⟩
  · exact of_decide_eq_true (by with_unfolding_all rfl)

/-- Claim C3, counterexample: parsing the quoted-labels input yields the
leaf name `[sq]Homo sapiens[sq]` with the quote characters retained — not
the quote-stripped `Homo sapiens` the claim requires, which appears
nowhere in the node table. -/
theorem claim_C3_cex :
    ((parseNewick quotedInput none).toOption.getD []).map TNode.name
      = ["", homoQuoted, panQuoted] ∧
    homoQuoted ≠ "Homo sapiens" ∧
    (((parseNewick quotedInput none).toOption.getD []).map TNode.name).contains
      "Homo sapiens" = false :=
  of_decide_eq_true (by with_unfolding_all rfl)

/-- Claim C3, witness: the trimming half of the amended claim applied to
the token `A` of a concrete tokenization. -/
theorem claim_C3_witness : isSpaceChar 'A' = false :=
  (claim_C3.1 "(A:1,B:2);"
    [['('], ['A'], [':', '1'], [','], ['B'], [':', '2'], [')'], [';']] ['A']
    (by with_unfolding_all rfl) (by decide)).1 'A' rfl

/-- Unfolding of the replay at a `(` token. -/
theorem unmatchedB_open (ts : List (List Char)) (d : ℕ) (pend lastb : Bool) :
    unmatchedB (['('] :: ts) d pend lastb = unmatchedB ts (d + 1) pend false := rfl

/-- Unfolding of the replay at a `,` token. -/
theorem unmatchedB_comma (ts : List (List Char)) (d : ℕ) (pend lastb : Bool) :
    unmatchedB ([','] :: ts) d pend lastb = unmatchedB ts d false false := rfl

/-- Unfolding of the replay at a `)` token. -/
theorem unmatchedB_close (ts : List (List Char)) (d : ℕ) (pend lastb : Bool) :
    unmatchedB ([')'] :: ts) d pend lastb
      = (match d with
         | 0 => !pend
         | dd + 1 => unmatchedB ts dd false false) := rfl

/-- Unfolding of the replay at a `;` token. -/
theorem unmatchedB_semi (ts : List (List Char)) (d : ℕ) (pend lastb : Bool) :
    unmatchedB ([';'] :: ts) d pend lastb = false := rfl

/-- Unfolding of the replay at a length token. -/
theorem unmatchedB_colon (t : List Char) (ts : List (List Char)) (d : ℕ) (pend lastb : Bool)
    (hc : t.head? = some ':') :
    unmatchedB (t :: ts) d pend lastb
      = ((parseFloatChars (trimChars t.tail)).isSome &&
         unmatchedB ts d (if lastb then pend else true) lastb) := by
  have h1 : t ≠ ['('] := by rintro rfl; simp at hc
  have h2 : t ≠ [','] := by rintro rfl; simp at hc
  have h3 : t ≠ [')'] := by rintro rfl; simp at hc
  have h4 : t ≠ [';'] := by rintro rfl; simp at hc
  simp only [unmatchedB, if_neg h1, if_neg h2, if_neg h3, if_neg h4, if_pos hc]

/-- Unfolding of the replay at a name token. -/
theorem unmatchedB_name (t : List Char) (ts : List (List Char)) (d : ℕ) (pend lastb : Bool)
    (h1 : t ≠ ['(']) (h2 : t ≠ [',']) (h3 : t ≠ [')']) (h4 : t ≠ [';'])
    (h5 : t.head? ≠ some ':') :
    unmatchedB (t :: ts) d pend lastb = unmatchedB ts d false true := by
  simp only [unmatchedB, if_neg h1, if_neg h2, if_neg h3, if_neg h4, if_neg h5]

/-- The parse step at `(`. -/
theorem parseStep_open (st : PState) : parseStep st ['('] = .ok (openStep st, false) := rfl

/-- The parse step at `,`. -/
theorem parseStep_comma (st : PState) : parseStep st [','] = .ok (commaStep st, false) := rfl

/-- The parse step at `)`. -/
theorem parseStep_close (st : PState) :
    parseStep st [')'] = (match closeStep st with
      | .error e => .error e
      | .ok st2 => .ok (st2, false)) := rfl

/-- The parse step at `;`. -/
theorem parseStep_semi (st : PState) : parseStep st [';'] = .ok (st, true) := rfl

/-- The parse step at a length token. -/
theorem parseStep_colon (st : PState) (t : List Char) (hc : t.head? = some ':') :
    parseStep st t = (match lenStep st t with
      | .error e => .error e
      | .ok st2 => .ok (st2, false)) := by
  have h1 : t ≠ ['('] := by rintro rfl; simp at hc
  have h2 : t ≠ [','] := by rintro rfl; simp at hc
  have h3 : t ≠ [')'] := by rintro rfl; simp at hc
  have h4 : t ≠ [';'] := by rintro rfl; simp at hc
  simp only [parseStep, if_neg h1, if_neg h2, if_neg h3, if_neg h4, if_pos hc]

/-- The parse step at a name token. -/
theorem parseStep_name (st : PState) (t : List Char)
    (h1 : t ≠ ['(']) (h2 : t ≠ [',']) (h3 : t ≠ [')']) (h4 : t ≠ [';'])
    (h5 : t.head? ≠ some ':') :
    parseStep st t = .ok (nameStep st t, false) := by
  simp only [parseStep, if_neg h1, if_neg h2, if_neg h3, if_neg h4, if_neg h5]

/-- Unfolding of the unlimited parse loop at a token. -/
theorem parseLoop_cons (st : PState) (t : List Char) (ts : List (List Char)) :
    parseLoop none st (t :: ts) = (match parseStep st t with
      | .error e => .error e
      | .ok (st2, true) => .ok st2
      | .ok (st2, false) => parseLoop none st2 ts) := rfl

/-- Tails of well-shaped stacks are well shaped. -/
theorem stackOk_tail (x : Option String) (l : List (Option String)) (h : stackOk (x :: l)) :
    stackOk l := by
  cases l with
  | nil => trivial
  | cons y t => exact h.2

/-- On a well-shaped stack the top entry is `None` exactly at the bottom. -/
theorem stackOk_head_iff (x : Option String) (l : List (Option String))
    (h : stackOk (x :: l)) : x = none ↔ l = [] := by
  cases l with
  | nil => exact ⟨fun _ => rfl, fun _ => h⟩
  | cons y t =>
    constructor
    · intro hx; exact absurd hx h.1
    · intro hc; exact absurd hc (by simp)

/-- Simulation of the parse loop by the abstract replay: from any state
whose pending name is clear and whose stack is well shaped, a replay
reaching an unmatched `)` with nothing pending forces the loop into the
empty-stack `pop`, an `IndexError`. -/
theorem parseLoop_unmatched :
    ∀ (ts : List (List Char)) (st : PState),
      st.pendingName = none →
      stackOk st.stack →
      (st.currentParent = none ↔ st.stack = []) →
      unmatchedB ts st.stack.length st.pendingLen.isSome st.last.isSome = true →
      parseLoop none st ts = .error .indexError := by
  intro ts
  induction ts with
  | nil =>
    intro st _ _ _ hu
    exact absurd hu (by simp [unmatchedB])
  | cons t rest ih =>
    intro st hpn hso hcp hu
    rw [parseLoop_cons]
    by_cases h1 : t = ['(']
    · subst h1
      rw [unmatchedB_open] at hu
      rw [parseStep_open]
      show parseLoop none (openStep st) rest = .error .indexError
      apply ih
      · exact hpn
      · show stackOk (st.currentParent :: st.stack)
        cases hs : st.stack with
        | nil => exact hcp.mpr hs
        | cons y t2 =>
          refine ⟨fun hnone => ?_, ?_⟩
          · have h0 := hcp.mp hnone
            rw [hs] at h0
            exact List.noConfusion h0
          · rw [hs] at hso
            exact hso
      · constructor
        · intro hx; exact absurd hx (by simp [openStep])
        · intro hx; exact absurd hx (by simp [openStep])
      · exact hu
    · by_cases h2 : t = [',']
      · subst h2
        rw [unmatchedB_comma] at hu
        rw [parseStep_comma]
        show parseLoop none (commaStep st) rest = .error .indexError
        exact ih (commaStep st) rfl hso hcp hu
      · by_cases h3 : t = [')']
        · subst h3
          rw [parseStep_close]
          cases hs : st.stack with
          | nil =>
            have hd : st.stack.length = 0 := by rw [hs]; rfl
            rw [unmatchedB_close, hd] at hu
            have hplnone : st.pendingLen = none := by
              rcases hpl : st.pendingLen with _ | L
              · rfl
              · rw [hpl] at hu; simp at hu
            have hclose : closeStep st = .error .indexError := by
              simp [closeStep, hpn, hplnone, hs]
            rw [hclose]
          | cons x rest2 =>
            have hd : st.stack.length = rest2.length + 1 := by rw [hs]; rfl
            rw [unmatchedB_close, hd] at hu
            have hso2 : stackOk (x :: rest2) := by rw [hs] at hso; exact hso
            rcases hpl : st.pendingLen with _ | L
            · have hclose : closeStep st = .ok { st with
                  nodes := st.nodes
                  pendingName := none
                  pendingLen := none
                  currentParent := x
                  stack := rest2
                  last := none } := by
                simp [closeStep, hpn, hpl, hs]
              rw [hclose]
              show parseLoop none _ rest = .error .indexError
              apply ih
              · rfl
              · exact stackOk_tail x rest2 hso2
              · exact stackOk_head_iff x rest2 hso2
              · exact hu
            · have hcpsome : ∃ p, st.currentParent = some p := by
                rcases hc : st.currentParent with _ | p
                · have h0 := hcp.mp hc
                  rw [hs] at h0
                  exact List.noConfusion h0
                · exact ⟨p, rfl⟩
              obtain ⟨p, hp⟩ := hcpsome
              have hclose : closeStep st = .ok { st with
                  nodes := updNode st.nodes p (fun n => { n with blen := L })
                  pendingName := none
                  pendingLen := none
                  currentParent := x
                  stack := rest2
                  last := none } := by
                simp [closeStep, hpn, hpl, hp, hs]
              rw [hclose]
              show parseLoop none _ rest = .error .indexError
              apply ih
              · rfl
              · exact stackOk_tail x rest2 hso2
              · exact stackOk_head_iff x rest2 hso2
              · exact hu
        · by_cases h4 : t = [';']
          · subst h4
            rw [unmatchedB_semi] at hu
            exact absurd hu (by simp)
          · by_cases h5 : t.head? = some ':'
            · rw [unmatchedB_colon t rest _ _ _ h5] at hu
              rw [Bool.and_eq_true] at hu
              obtain ⟨hsome, hurest⟩ := hu
              obtain ⟨L, hL⟩ := Option.isSome_iff_exists.mp hsome
              rw [parseStep_colon st t h5]
              rcases hl : st.last with _ | lu
              · have hlen : lenStep st t = .ok { st with pendingLen := some L } := by
                  simp [lenStep, hL, hl]
                rw [hlen]
                show parseLoop none _ rest = .error .indexError
                apply ih
                · exact hpn
                · exact hso
                · exact hcp
                · show unmatchedB rest st.stack.length true st.last.isSome = true
                  rw [hl] at hurest ⊢
                  simpa using hurest
              · have hlen : lenStep st t
                    = .ok { st with nodes := updNode st.nodes lu (fun n => { n with blen := L }) } := by
                  simp [lenStep, hL, hl]
                rw [hlen]
                show parseLoop none _ rest = .error .indexError
                apply ih
                · exact hpn
                · exact hso
                · exact hcp
                · show unmatchedB rest st.stack.length st.pendingLen.isSome st.last.isSome
                      = true
                  rw [hl] at hurest ⊢
                  simpa using hurest
            · rw [unmatchedB_name t rest _ _ _ h1 h2 h3 h4 h5] at hu
              rw [parseStep_name st t h1 h2 h3 h4 h5]
              show parseLoop none (nameStep st t) rest = .error .indexError
              apply ih
              · rfl
              · exact hso
              · exact hcp
              · exact hu

/-- Claim C10, amended: whenever the token stream of an input reaches,
before any `;`, a `)` with every open group already closed and no pending
length buffered (all length tokens before it being parseable), the parser
raises `IndexError` from popping the empty parent stack.  When a pending
length is buffered at such a `)`, the attach `nodes[None]` raises
`KeyError` first instead (see the counterexample); both are outside the
specified failure modes.  The tokenizer itself accepts such input. -/
theorem claim_C10 (s : String) (ts : List (List Char))
    (hok : tokenizeNewick s = .ok ts)
    (hu : unmatchedB ts 0 false false = true) :
    parseNewick s none = .error .indexError := by
  unfold parseNewick
  rw [hok]
  have hloop := parseLoop_unmatched ts initPState rfl trivial
    (Iff.intro (fun _ => rfl) (fun _ => rfl)) hu
  show (match parseLoop none initPState ts with
        | .error e => (.error e : Except Err (List TNode))
        | .ok st => finalizeParse st) = .error .indexError
  rw [hloop]

/-- Claim C10, witness: the amended statement at the input `A);` — the
tokenizer accepts it and the parser raises `IndexError`. -/
theorem claim_C10_witness : parseNewick "A);" none = .error .indexError :=
  claim_C10 "A);" [['A'], [')'], [';']] (by with_unfolding_all rfl)
    (by with_unfolding_all rfl)

instance exceptDecEq {e0 a0 : Type} [DecidableEq e0] [DecidableEq a0] :
    DecidableEq (Except e0 a0) := fun a b =>
  match a, b with
  | .ok x, .ok y =>
    if h : x = y then isTrue (by rw [h]) else isFalse (by intro hh; cases hh; exact h rfl)
  | .error x, .error y =>
    if h : x = y then isTrue (by rw [h]) else isFalse (by intro hh; cases hh; exact h rfl)
  | .ok _, .error _ => isFalse (by intro hh; cases hh)
  | .error _, .ok _ => isFalse (by intro hh; cases hh)

/-- Claim C10, counterexample: the input `:1);` contains an unmatched `)`
(and the tokenizer accepts it), yet the parser raises `KeyError` from
`nodes[None]` while attaching the pending length — not the `IndexError`
the claim asserts for every such input. -/
theorem claim_C10_cex :
    parseNewick ":1);" none = .error .keyError ∧
    (tokenizeNewick ":1);").isOk = true ∧
    Err.keyError ≠ Err.indexError :=
  of_decide_eq_true (by with_unfolding_all rfl)

end Gtol
